import Mathlib

/-!
Verification of the Hamiltonian-cycle snake-game core
(`src/hamiltonian_path.py`, `src/agent_hybrid.py`, `src/game.py`).

The Python code is shallowly embedded: `Point` namedtuples become a
two-field structure over `Int` (Python ints are unbounded), Python lists
become `List`, Python `//` (floor division) becomes `Int.fdiv`, Python `%`
on integers becomes `Int.emod` (Lean's `%` on `Int`), and the float scores
returned by the safety/danger calculators are modeled exactly as rationals
(`ℚ`); every claim settled here only ever compares those scores against the
exact literals `0.0` and `1.0`, which float arithmetic represents exactly,
so the `ℚ` model is faithful on everything proved below.
-/

namespace SnakeGame

/-- `Point = namedtuple('Point', 'x, y')` from `game.py` (pixel coordinates,
Python ints). -/
structure Point where
  x : Int
  y : Int
deriving DecidableEq

/-- `class Direction(Enum)` from `game.py`. -/
inductive Direction where
  | RIGHT
  | LEFT
  | UP
  | DOWN
deriving DecidableEq

/-- `BLOCK_SIZE = 20` from `game.py`. -/
def BLOCK_SIZE : Int := 20

/-- One row of the zigzag in `HamiltonianPath._build_hamiltonian_cycle`:
for even `y` the inner loop is `for x in range(grid_width)`, for odd `y`
it is `for x in range(grid_width - 1, -1, -1)`, which enumerates
`grid_width - 1 - k` for `k = 0, …, grid_width - 1`; each iteration appends
`Point(x * block_size, y * block_size)`. -/
def buildRow (grid_width : Nat) (block_size : Int) (y : Nat) : List Point :=
  if y % 2 = 0 then
    (List.range grid_width).map
      (fun (k : Nat) => { x := (k : Int) * block_size, y := (y : Int) * block_size })
  else
    (List.range grid_width).map
      (fun k => { x := ((grid_width - 1 - k : Nat) : Int) * block_size,
                  y := (y : Int) * block_size })

/-- `HamiltonianPath._build_hamiltonian_cycle` (lines 54-81): the outer loop
`for y in range(grid_height)` concatenates the rows; the trailing
odd-height branch is a `pass` and changes nothing. -/
def buildHamiltonianCycle (grid_width grid_height : Nat) (block_size : Int) : List Point :=
  (List.range grid_height).flatMap (buildRow grid_width block_size)

/-- The `HamiltonianPath` object state set up by `__init__` (lines 29-52). -/
structure HamiltonianPath where
  width : Int
  height : Int
  block_size : Int
  grid_width : Nat
  grid_height : Nat
  cycle : List Point
  path_length : Nat

/-- `HamiltonianPath.__init__(width, height, block_size)`: stores the pixel
dimensions, computes `grid_width = width // block_size` and
`grid_height = height // block_size` (Python floor division; the loops
`range(grid_height)` treat a negative count as zero, which `Int.toNat`
captures), builds the cycle and records its length.  The constructor
performs no validation and has no failure path. -/
def mkHamiltonianPath (width height block_size : Int) : HamiltonianPath :=
  let grid_width := (width.fdiv block_size).toNat
  let grid_height := (height.fdiv block_size).toNat
  let cycle := buildHamiltonianCycle grid_width grid_height block_size
  ⟨width, height, block_size, grid_width, grid_height, cycle, cycle.length⟩

/-- Closed form for the cell the zigzag places at index `i`:
row `i / gw`, column `i % gw` on even rows and `gw - 1 - i % gw` on odd
rows, scaled by the block size. -/
def cellAt (grid_width : Nat) (block_size : Int) (i : Nat) : Point :=
  let y := i / grid_width
  let x := if y % 2 = 0 then i % grid_width else grid_width - 1 - i % grid_width
  { x := (x : Int) * block_size, y := (y : Int) * block_size }

theorem cellAt_row (gw : Nat) (bs : Int) (y x : Nat) (hx : x < gw) :
    cellAt gw bs (gw * y + x) =
      { x := ((if y % 2 = 0 then x else gw - 1 - x : Nat) : Int) * bs,
        y := (y : Int) * bs } := by
  have hgw : 0 < gw := by omega
  have hdiv : (gw * y + x) / gw = y := by
    rw [Nat.mul_add_div hgw, Nat.div_eq_of_lt hx, Nat.add_zero]
  have hmod : (gw * y + x) % gw = x := by
    rw [Nat.mul_add_mod, Nat.mod_eq_of_lt hx]
  simp only [cellAt, hdiv, hmod]

theorem buildRow_eq_map (gw : Nat) (bs : Int) (y : Nat) :
    buildRow gw bs y = (List.range gw).map (fun x => cellAt gw bs (gw * y + x)) := by
  unfold buildRow
  by_cases hy : y % 2 = 0
  · rw [if_pos hy]
    refine List.map_congr_left ?_
    intro x hx
    rw [cellAt_row gw bs y x (List.mem_range.mp hx), if_pos hy]
  · rw [if_neg hy]
    refine List.map_congr_left ?_
    intro x hx
    rw [cellAt_row gw bs y x (List.mem_range.mp hx), if_neg hy]

theorem buildCycle_eq_map (gw gh : Nat) (bs : Int) :
    buildHamiltonianCycle gw gh bs = (List.range (gw * gh)).map (cellAt gw bs) := by
  induction gh with
  | zero => simp [buildHamiltonianCycle]
  | succ n ih =>
    have h1 : buildHamiltonianCycle gw (n + 1) bs =
        buildHamiltonianCycle gw n bs ++ buildRow gw bs n := by
      unfold buildHamiltonianCycle
      rw [List.range_succ, List.flatMap_append]
      simp
    rw [h1, ih, buildRow_eq_map, Nat.mul_succ, List.range_add, List.map_append,
      List.map_map]
    rfl

theorem buildCycle_length (gw gh : Nat) (bs : Int) :
    (buildHamiltonianCycle gw gh bs).length = gw * gh := by
  rw [buildCycle_eq_map]
  simp

theorem buildCycle_get (gw gh : Nat) (bs : Int) (i : Nat)
    (h : i < (buildHamiltonianCycle gw gh bs).length) :
    (buildHamiltonianCycle gw gh bs).get ⟨i, h⟩ = cellAt gw bs i := by
  rw [List.get_eq_getElem]
  simp only [buildCycle_eq_map, List.getElem_map, List.getElem_range]

theorem cellAt_inj (gw : Nat) (bs : Int) (hbs : 0 < bs) (i j : Nat)
    (hij : cellAt gw bs i = cellAt gw bs j) : i % gw = j % gw ∧ i / gw = j / gw := by
  have hbs' : bs ≠ 0 := ne_of_gt hbs
  have cancel : ∀ a b : Nat, (a : Int) * bs = (b : Int) * bs → a = b := by
    intro a b hab
    have h := mul_right_cancel₀ hbs' hab
    exact_mod_cast h
  simp only [cellAt, Point.mk.injEq] at hij
  obtain ⟨hx, hy⟩ := hij
  have hyy : i / gw = j / gw := cancel _ _ hy
  refine ⟨?_, hyy⟩
  rw [hyy] at hx
  by_cases hpar : j / gw % 2 = 0
  · rw [if_pos hpar, if_pos hpar] at hx
    exact cancel _ _ hx
  · rw [if_neg hpar, if_neg hpar] at hx
    have hgw : 0 < gw := by
      rcases Nat.eq_zero_or_pos gw with h0 | h0
      · exfalso
        rw [h0] at hpar
        simp [Nat.div_zero] at hpar
      · exact h0
    have hx' : gw - 1 - i % gw = gw - 1 - j % gw := cancel _ _ hx
    have h1 : i % gw < gw := Nat.mod_lt _ hgw
    have h2 : j % gw < gw := Nat.mod_lt _ hgw
    omega

theorem buildCycle_nodup (gw gh : Nat) (bs : Int) (hbs : 0 < bs) :
    (buildHamiltonianCycle gw gh bs).Nodup := by
  rw [buildCycle_eq_map]
  refine List.Nodup.map_on ?_ (List.nodup_range _)
  intro i _ j _ hij
  obtain ⟨hm, hd⟩ := cellAt_inj gw bs hbs i j hij
  calc i = gw * (i / gw) + i % gw := (Nat.div_add_mod i gw).symm
    _ = gw * (j / gw) + j % gw := by rw [hm, hd]
    _ = j := Nat.div_add_mod j gw

theorem buildCycle_mem (gw gh : Nat) (bs : Int) (p : Point) :
    p ∈ buildHamiltonianCycle gw gh bs ↔
      ∃ x y : Nat, x < gw ∧ y < gh ∧ p = { x := (x : Int) * bs, y := (y : Int) * bs } := by
  rw [buildCycle_eq_map]
  simp only [List.mem_map, List.mem_range]
  constructor
  · rintro ⟨i, hi, rfl⟩
    have hpos : 0 < gw * gh := lt_of_le_of_lt (Nat.zero_le i) hi
    have hgw : 0 < gw := by
      rcases Nat.eq_zero_or_pos gw with h0 | h0
      · rw [h0] at hpos
        simp at hpos
      · exact h0
    refine ⟨if i / gw % 2 = 0 then i % gw else gw - 1 - i % gw, i / gw, ?_, ?_, ?_⟩
    · have hm := Nat.mod_lt i hgw
      split <;> omega
    · exact Nat.div_lt_of_lt_mul hi
    · simp only [cellAt]
  · rintro ⟨x, y, hx, hy, rfl⟩
    have hgw : 0 < gw := by omega
    have hlt : (if y % 2 = 0 then x else gw - 1 - x) < gw := by split <;> omega
    refine ⟨gw * y + (if y % 2 = 0 then x else gw - 1 - x), ?_, ?_⟩
    · calc gw * y + (if y % 2 = 0 then x else gw - 1 - x) < gw * y + gw := by omega
        _ = gw * (y + 1) := by ring
        _ ≤ gw * gh := Nat.mul_le_mul_left gw hy
    · rw [cellAt_row gw bs y _ hlt]
      by_cases hpar : y % 2 = 0
      · rw [if_pos hpar, if_pos hpar]
      · rw [if_neg hpar, if_neg hpar]
        congr 2
        omega

/-- `HamiltonianPath.get_position_index` (lines 83-103): `self.cycle.index(point)`
returns the first index of `point`, raising `ValueError` when absent — the
`try`/`except` is rendered as a membership test guarding `List.indexOf`.
On failure the query is snapped to its containing grid cell with Python
floor division (`Int.fdiv`) and retried once; `-1` signals NOT_FOUND. -/
def get_position_index (hp : HamiltonianPath) (point : Point) : Int :=
  if point ∈ hp.cycle then (hp.cycle.indexOf point : Int)
  else
    let grid_x := (point.x.fdiv hp.block_size) * hp.block_size
    let grid_y := (point.y.fdiv hp.block_size) * hp.block_size
    let closest : Point := { x := grid_x, y := grid_y }
    if closest ∈ hp.cycle then (hp.cycle.indexOf closest : Int)
    else -1

/-- `HamiltonianPath.get_next_position` (lines 105-120).  `self.cycle[0]` and
`self.cycle[next_idx]` are in-range list accesses whenever the cycle is
non-empty (the only situation the claims quantify over); `List.getD` with a
dummy default renders them totally. -/
def get_next_position (hp : HamiltonianPath) (current_point : Point) : Point :=
  let current_idx := get_position_index hp current_point
  if current_idx = -1 then hp.cycle.getD 0 { x := 0, y := 0 }
  else hp.cycle.getD ((current_idx.toNat + 1) % hp.path_length) { x := 0, y := 0 }

/-- `HamiltonianPath.get_distance_on_path` (lines 247-268); the
`float('inf')` result for an unresolvable endpoint is modeled as `none`. -/
def get_distance_on_path (hp : HamiltonianPath) (from_point to_point : Point) :
    Option Int :=
  let from_idx := get_position_index hp from_point
  let to_idx := get_position_index hp to_point
  if from_idx = -1 ∨ to_idx = -1 then none
  else if to_idx ≥ from_idx then some (to_idx - from_idx)
  else some ((hp.path_length : Int) - from_idx + to_idx)

/-- `HamiltonianPath._direction_to_action` (lines 218-245).  The action
arrays `[1,0,0]`, `[0,1,0]`, `[0,0,1]` are kept as literal lists; the
Python `%` on possibly-negative ints is `Int.emod` (Lean's `%`). -/
def direction_to_action (current_dir target_dir : Direction) : List Nat :=
  let clock_wise := [Direction.RIGHT, Direction.DOWN, Direction.LEFT, Direction.UP]
  let current_idx := clock_wise.indexOf current_dir
  let target_idx := clock_wise.indexOf target_dir
  let turn := ((target_idx : Int) - (current_idx : Int)) % 4
  if turn = 0 then [1, 0, 0]
  else if turn = 1 then [0, 1, 0]
  else if turn = 3 then [0, 0, 1]
  else [0, 1, 0]

/-- The axis/direction selection of `HamiltonianPath._try_shortcut_to_food`
(lines 179-186): horizontal when `abs(dx) > abs(dy)`, vertical otherwise. -/
def shortcutTargetDir (dx dy : Int) : Direction :=
  if |dx| > |dy| then
    if dx > 0 then Direction.RIGHT else Direction.LEFT
  else
    if dy > 0 then Direction.DOWN else Direction.UP

/-- `HamiltonianPath._try_shortcut_to_food` (lines 163-216): `None` becomes
`none`; `snake_body[1:]` is `List.drop 1`. -/
def tryShortcutToFood (hp : HamiltonianPath) (current_point : Point)
    (current_direction : Direction) (food_point : Point)
    (snake_body : List Point) : Option (List Nat) :=
  let dx := food_point.x - current_point.x
  let dy := food_point.y - current_point.y
  let manhattan_dist := |dx| + |dy|
  if manhattan_dist > hp.block_size * 5 then none
  else
    let target_dir := shortcutTargetDir dx dy
    let action := direction_to_action current_direction target_dir
    let next_x :=
      if target_dir = Direction.RIGHT then current_point.x + hp.block_size
      else if target_dir = Direction.LEFT then current_point.x - hp.block_size
      else current_point.x
    let next_y :=
      if target_dir = Direction.DOWN then current_point.y + hp.block_size
      else if target_dir = Direction.UP then current_point.y - hp.block_size
      else current_point.y
    let next_point : Point := { x := next_x, y := next_y }
    if next_x < 0 ∨ next_x ≥ hp.width ∨ next_y < 0 ∨ next_y ≥ hp.height then none
    else if next_point ∈ snake_body.drop 1 then none
    else some action

/-- `HamiltonianPath.get_direction_to_next` (lines 122-161) with both
optional arguments supplied (as in every call site of the hybrid agent). -/
def get_direction_to_next (hp : HamiltonianPath) (current_point : Point)
    (current_direction : Direction) (food_point : Point)
    (snake_body : List Point) : List Nat :=
  match tryShortcutToFood hp current_point current_direction food_point snake_body with
  | some shortcut_action => shortcut_action
  | none =>
    let next_point := get_next_position hp current_point
    let dx := next_point.x - current_point.x
    let dy := next_point.y - current_point.y
    let target_dir :=
      if dx > 0 then Direction.RIGHT
      else if dx < 0 then Direction.LEFT
      else if dy > 0 then Direction.DOWN
      else Direction.UP
    direction_to_action current_direction target_dir

/-- The loop of `HamiltonianPath.calculate_safety_score` (lines 329-337):
minimum over `snake_body[3:]` of the wrap-aware cycle-index distance to
`current_idx`; `none` models the initial `float('inf')`. -/
def minBodyCycleDist (hp : HamiltonianPath) (current_idx : Int)
    (segments : List Point) : Option Int :=
  segments.foldl
    (fun min_distance segment =>
      let segment_idx := get_position_index hp segment
      if segment_idx = -1 then min_distance
      else
        let d0 := |segment_idx - current_idx|
        let d := min d0 ((hp.path_length : Int) - d0)
        match min_distance with
        | none => some d
        | some m => some (min m d))
    none

/-- `HamiltonianPath.calculate_safety_score` (lines 311-345), floats as `ℚ`. -/
def calculate_safety_score (hp : HamiltonianPath) (current_point : Point)
    (snake_body : List Point) : ℚ :=
  if snake_body.length ≤ 3 then 1
  else
    let current_idx := get_position_index hp current_point
    if current_idx = -1 then 0
    else
      match minBodyCycleDist hp current_idx (snake_body.drop 3) with
      | none => 1
      | some min_distance => min 1 ((min_distance : ℚ) / ((snake_body.length : ℚ) + 2))

/-- `SnakeGameAI._move` (game.py lines 188-215), direction update only:
the relative action array rotates the heading through the clockwise list;
Python `(idx - 1) % 4` is `Int.emod`. -/
def moveDirection (direction : Direction) (action : List Nat) : Direction :=
  let clock_wise := [Direction.RIGHT, Direction.DOWN, Direction.LEFT, Direction.UP]
  let idx := clock_wise.indexOf direction
  if action = [1, 0, 0] then clock_wise.getD idx Direction.RIGHT
  else if action = [0, 1, 0] then
    clock_wise.getD (((idx : Int) + 1) % 4).toNat Direction.RIGHT
  else clock_wise.getD (((idx : Int) - 1) % 4).toNat Direction.RIGHT

/-- `SnakeGameAI._move`, head update: one block step in the new heading. -/
def moveStep (p : Point) (d : Direction) (block_size : Int) : Point :=
  match d with
  | Direction.RIGHT => { x := p.x + block_size, y := p.y }
  | Direction.LEFT => { x := p.x - block_size, y := p.y }
  | Direction.DOWN => { x := p.x, y := p.y + block_size }
  | Direction.UP => { x := p.x, y := p.y - block_size }

/-- The game-state fields of `SnakeGameAI` read by the hybrid agent's
decision functions (`head` is `snake[0]` at every call site). -/
structure GameState where
  w : Int
  h : Int
  direction : Direction
  head : Point
  snake : List Point
  food : Point

/-- `SnakeGameAI._is_wall_collision` (game.py lines 156-160). -/
def is_wall_collision (g : GameState) (pt : Point) : Bool :=
  decide (pt.x > g.w - BLOCK_SIZE ∨ pt.x < 0 ∨ pt.y > g.h - BLOCK_SIZE ∨ pt.y < 0)

/-- `SnakeGameAI._is_tail_collision` (game.py lines 162-166). -/
def is_tail_collision (g : GameState) (pt : Point) : Bool :=
  decide (pt ∈ g.snake.drop 1)

/-- `SnakeGameAI.is_collision` (game.py lines 168-172) with an explicit point. -/
def is_collision (g : GameState) (pt : Point) : Bool :=
  is_wall_collision g pt || is_tail_collision g pt

/-- The tail-proximity loop of `HybridAgent.calculate_danger_level`
(agent_hybrid.py lines 181-185): minimum Manhattan distance from the head
to `snake[3:]`; `none` models the initial `float('inf')`. -/
def minTailManhattan (head : Point) (segments : List Point) : Option Int :=
  segments.foldl
    (fun min_tail_distance segment =>
      let dist := |head.x - segment.x| + |head.y - segment.y|
      match min_tail_distance with
      | none => some dist
      | some m => some (min m dist))
    none

/-- `HybridAgent.calculate_danger_level` (agent_hybrid.py lines 154-190),
floats as `ℚ`; the neighbor offsets are `(20,0), (-20,0), (0,20), (0,-20)`. -/
def calculate_danger_level (g : GameState) : ℚ :=
  let head := g.head
  let offsets : List Point := [{ x := 20, y := 0 }, { x := -20, y := 0 },
    { x := 0, y := 20 }, { x := 0, y := -20 }]
  let danger_count :=
    (offsets.filter (fun o => is_collision g { x := head.x + o.x, y := head.y + o.y })).length
  let total_checks : ℚ := 4
  let immediate_danger : ℚ := (danger_count : ℚ) / total_checks
  if danger_count ≥ 3 then 1
  else
    let immediate_danger' :=
      if g.snake.length > 3 then
        match minTailManhattan head (g.snake.drop 3) with
        | some m => if m ≤ 20 then immediate_danger + 3 / 10 else immediate_danger
        | none => immediate_danger
      else immediate_danger
    min 1 immediate_danger'

/-- The `HybridAgent` fields read by its decision methods.  In the Python
constructor `self.hamiltonian` is `None` exactly when `use_hamiltonian` is
false, in which case no method below ever dereferences it, so it is kept
as an always-present field next to the flag. -/
structure HybridAgent where
  n_games : Nat
  use_hamiltonian : Bool
  danger_threshold : ℚ
  min_exploration_games : Nat
  hamiltonian : HamiltonianPath

/-- `HybridAgent.__init__` decision-relevant state: `n_games = 0`,
`danger_threshold = 0.3`, `min_exploration_games = 50`,
`hamiltonian = HamiltonianPath(640, 480, 20)`. -/
def mkHybridAgent (use_hamiltonian : Bool) : HybridAgent :=
  { n_games := 0
    use_hamiltonian := use_hamiltonian
    danger_threshold := 3 / 10
    min_exploration_games := 50
    hamiltonian := mkHamiltonianPath 640 480 20 }

/-- `HybridAgent.should_use_hamiltonian` (agent_hybrid.py lines 192-223).
The Python truthiness test `if self.hamiltonian:` is true exactly when
`use_hamiltonian` is (as this branch is only reached when the flag is set,
`self.hamiltonian` is then a constructed object, hence truthy). -/
def should_use_hamiltonian (agent : HybridAgent) (g : GameState) : Bool :=
  if !agent.use_hamiltonian then false
  else if agent.n_games < agent.min_exploration_games then false
  else
    let danger := calculate_danger_level g
    if danger ≥ 1 - agent.danger_threshold then true
    else if agent.use_hamiltonian &&
        decide (calculate_safety_score agent.hamiltonian g.head g.snake <
          agent.danger_threshold) then true
    else if g.snake.length > 20 ∧ danger > 2 / 5 then true
    else false

/-- `HybridAgent.get_action` (agent_hybrid.py lines 225-262).  The AI branch
(epsilon-greedy exploration plus the neural network forward pass) is the
opaque Policy Provider; its eventual one-hot output is the `policy_action`
argument.  The usage tallies are observability-only and are omitted. -/
def get_action (agent : HybridAgent) (g : GameState) (policy_action : List Nat) :
    List Nat :=
  if should_use_hamiltonian agent g then
    get_direction_to_next agent.hamiltonian g.head g.direction g.food g.snake
  else policy_action

/-- Manhattan distance between two cells, the 4-adjacency metric of the
spec (used e.g. by `manhattan_dist` in `_try_shortcut_to_food` and the
tail-distance loops). -/
def manhattanDist (p q : Point) : Int :=
  |p.x - q.x| + |p.y - q.y|

/-- The 180-degree reverse of a heading. -/
def reverseDir : Direction → Direction
  | Direction.RIGHT => Direction.LEFT
  | Direction.LEFT => Direction.RIGHT
  | Direction.UP => Direction.DOWN
  | Direction.DOWN => Direction.UP

theorem cellAt_adjacent (gw : Nat) (bs : Int) (hbs : 0 < bs) (hgw : 0 < gw) (i : Nat) :
    manhattanDist (cellAt gw bs i) (cellAt gw bs (i + 1)) = bs := by
  have hrlt : i % gw < gw := Nat.mod_lt _ hgw
  have hi : i = gw * (i / gw) + i % gw := (Nat.div_add_mod i gw).symm
  have h1 : cellAt gw bs i =
      { x := ((if i / gw % 2 = 0 then i % gw else gw - 1 - i % gw : Nat) : Int) * bs,
        y := ((i / gw : Nat) : Int) * bs } := by
    conv_lhs => rw [hi]
    exact cellAt_row gw bs (i / gw) (i % gw) hrlt
  by_cases hcase : i % gw + 1 < gw
  · have hstep : i + 1 = gw * (i / gw) + (i % gw + 1) := by omega
    have h2 : cellAt gw bs (i + 1) =
        { x := ((if i / gw % 2 = 0 then i % gw + 1 else gw - 1 - (i % gw + 1) : Nat) : Int) * bs,
          y := ((i / gw : Nat) : Int) * bs } := by
      rw [hstep]
      exact cellAt_row gw bs (i / gw) (i % gw + 1) hcase
    rw [h1, h2]
    unfold manhattanDist
    simp only [sub_self, abs_zero, add_zero]
    by_cases hpar : i / gw % 2 = 0
    · rw [if_pos hpar, if_pos hpar]
      have hd : ((i % gw : Nat) : Int) * bs - ((i % gw + 1 : Nat) : Int) * bs = -bs := by
        push_cast
        ring
      rw [hd, abs_neg, abs_of_pos hbs]
    · rw [if_neg hpar, if_neg hpar]
      have hd : ((gw - 1 - i % gw : Nat) : Int) * bs -
          ((gw - 1 - (i % gw + 1) : Nat) : Int) * bs = bs := by
        have hc : ((gw - 1 - i % gw : Nat) : Int) =
            ((gw - 1 - (i % gw + 1) : Nat) : Int) + 1 := by omega
        rw [hc]
        ring
      rw [hd, abs_of_pos hbs]
  · have hr : i % gw = gw - 1 := by omega
    have hstep : i + 1 = gw * (i / gw + 1) + 0 := by
      rw [Nat.mul_add, Nat.mul_one, Nat.add_zero]
      omega
    have h2 : cellAt gw bs (i + 1) =
        { x := ((if (i / gw + 1) % 2 = 0 then 0 else gw - 1 - 0 : Nat) : Int) * bs,
          y := ((i / gw + 1 : Nat) : Int) * bs } := by
      rw [hstep]
      exact cellAt_row gw bs (i / gw + 1) 0 hgw
    rw [h1, h2]
    unfold manhattanDist
    have hy : ((i / gw : Nat) : Int) * bs - ((i / gw + 1 : Nat) : Int) * bs = -bs := by
      push_cast
      ring
    by_cases hpar : i / gw % 2 = 0
    · have hpar' : ¬(i / gw + 1) % 2 = 0 := by omega
      rw [if_pos hpar, if_neg hpar', hr, hy]
      simp only [Nat.sub_zero, sub_self, abs_zero, abs_neg, abs_of_pos hbs, zero_add]
    · have hpar' : (i / gw + 1) % 2 = 0 := by omega
      rw [if_neg hpar, if_pos hpar', hr, hy]
      have hx0 : gw - 1 - (gw - 1) = 0 := by omega
      rw [hx0]
      simp only [Nat.cast_zero, zero_mul, sub_self, abs_zero, abs_neg,
        abs_of_pos hbs, zero_add]

theorem get_position_index_get (hp : HamiltonianPath) (hnd : hp.cycle.Nodup)
    (j : Nat) (hj : j < hp.cycle.length) :
    get_position_index hp (hp.cycle.get ⟨j, hj⟩) = (j : Int) := by
  have hmem : hp.cycle.get ⟨j, hj⟩ ∈ hp.cycle := List.get_mem _ _ _
  unfold get_position_index
  rw [if_pos hmem]
  rw [List.get_indexOf hnd ⟨j, hj⟩]

theorem get_congr_idx {α : Type} (l : List α) (i j : Nat) (hi : i < l.length)
    (hj : j < l.length) (h : i = j) : l.get ⟨i, hi⟩ = l.get ⟨j, hj⟩ := by
  subst h
  rfl

theorem get_next_position_get (hp : HamiltonianPath) (hnd : hp.cycle.Nodup)
    (hlen : hp.path_length = hp.cycle.length) (j : Nat) (hj : j < hp.cycle.length) :
    get_next_position hp (hp.cycle.get ⟨j, hj⟩) =
      hp.cycle.get ⟨(j + 1) % hp.cycle.length, Nat.mod_lt _ (by omega)⟩ := by
  unfold get_next_position
  rw [get_position_index_get hp hnd j hj]
  have hne : ((j : Int)) ≠ -1 := by omega
  rw [if_neg hne, Int.toNat_natCast, hlen]
  exact List.getD_eq_getElem _ _ (Nat.mod_lt _ (by omega))

theorem iterate_next (hp : HamiltonianPath) (hnd : hp.cycle.Nodup)
    (hlen : hp.path_length = hp.cycle.length) (j : Nat) (hj : j < hp.cycle.length)
    (k : Nat) :
    (get_next_position hp)^[k] (hp.cycle.get ⟨j, hj⟩) =
      hp.cycle.get ⟨(j + k) % hp.cycle.length, Nat.mod_lt _ (by omega)⟩ := by
  induction k with
  | zero =>
    simp only [Function.iterate_zero, id]
    exact (get_congr_idx _ _ _ _ _ (by rw [Nat.add_zero, Nat.mod_eq_of_lt hj])).symm
  | succ n ih =>
    rw [Function.iterate_succ_apply', ih,
      get_next_position_get hp hnd hlen _ (Nat.mod_lt _ (by omega))]
    exact get_congr_idx _ _ _ _ _ (by rw [Nat.mod_add_mod, Nat.add_assoc])

theorem get_distance_on_path_def (hp : HamiltonianPath) (a b : Point) :
    get_distance_on_path hp a b =
      if get_position_index hp a = -1 ∨ get_position_index hp b = -1 then none
      else if get_position_index hp b ≥ get_position_index hp a then
        some (get_position_index hp b - get_position_index hp a)
      else
        some ((hp.path_length : Int) - get_position_index hp a +
          get_position_index hp b) := rfl

/-- C1: the claim says every action returned by
`HamiltonianPath._try_shortcut_to_food` leads (when executed as a relative
action against the current heading, per `SnakeGameAI._move`) to a cell
inside the grid and free of non-head occupants.  The code violates this:
its safety check validates the cell one step in the *target* direction,
but when the target direction is the 180-degree reverse of the heading,
`_direction_to_action` substitutes a right turn, so the executed move goes
to a different, unvalidated cell.  At the input below the snake's head is
at (40, 460) on the bottom row heading RIGHT with food at (0, 460): the
planner validates the LEFT cell (20, 460) and returns the turn-right
action [0,1,0], whose execution reaches (40, 480) — outside the grid. -/
theorem C1_shortcut_safety_bug :
    tryShortcutToFood (mkHamiltonianPath 640 480 20) { x := 40, y := 460 }
      Direction.RIGHT { x := 0, y := 460 } [{ x := 40, y := 460 }] =
        some [0, 1, 0] ∧
    moveStep { x := 40, y := 460 } (moveDirection Direction.RIGHT [0, 1, 0])
      (mkHamiltonianPath 640 480 20).block_size = { x := 40, y := 480 } ∧
    ¬(({ x := 40, y := 480 } : Point).y < (mkHamiltonianPath 640 480 20).height) := by
  refine ⟨by decide, by decide, by decide⟩

/-- C2 (counterexample): the claim says `calculate_safety_score` returns
1.0 whenever the head does not resolve to a cycle position.  On a 2×2 grid
the head (-20, 0) is NOT_FOUND, and with a 4-segment body the code takes
the `current_idx == -1` branch and returns 0.0, not 1.0. -/
theorem C2_safety_score_counterexample :
    get_position_index (mkHamiltonianPath 40 40 20) { x := -20, y := 0 } = -1 ∧
    calculate_safety_score (mkHamiltonianPath 40 40 20) { x := -20, y := 0 }
      [{ x := -20, y := 0 }, { x := 0, y := 0 }, { x := 20, y := 0 },
        { x := 40, y := 0 }] = 0 ∧
    ¬(calculate_safety_score (mkHamiltonianPath 40 40 20) { x := -20, y := 0 }
      [{ x := -20, y := 0 }, { x := 0, y := 0 }, { x := 20, y := 0 },
        { x := 40, y := 0 }] = 1) := by
  refine ⟨by decide, by decide, by decide⟩

/-- C2 (amended): `calculate_safety_score` returns exactly 1.0 whenever the
occupant count is at most 3; when the occupant count exceeds 3 and the head
does not resolve to a valid cycle position (NOT_FOUND), it returns 0.0
(the `len <= 3` guard runs first, so a NOT_FOUND head with a short body
still scores 1.0). -/
theorem C2_safety_score_amended (w h bs : Int) (current : Point)
    (snake_body : List Point) :
    (snake_body.length ≤ 3 →
      calculate_safety_score (mkHamiltonianPath w h bs) current snake_body = 1) ∧
    (3 < snake_body.length →
      get_position_index (mkHamiltonianPath w h bs) current = -1 →
      calculate_safety_score (mkHamiltonianPath w h bs) current snake_body = 0) := by
  constructor
  · intro hlen
    unfold calculate_safety_score
    rw [if_pos hlen]
  · intro hlen hidx
    unfold calculate_safety_score
    rw [if_neg (by omega)]
    simp [hidx]

/-- C2 (witness for the amended theorem): a 1-segment body scores 1.0 and a
4-segment body with a NOT_FOUND head scores 0.0 on the 2×2 grid. -/
theorem C2_safety_score_witness :
    calculate_safety_score (mkHamiltonianPath 40 40 20) { x := 0, y := 0 }
      [{ x := 0, y := 0 }] = 1 ∧
    calculate_safety_score (mkHamiltonianPath 40 40 20) { x := -20, y := 0 }
      [{ x := -20, y := 0 }, { x := 0, y := 0 }, { x := 20, y := 0 },
        { x := 40, y := 0 }] = 0 :=
  ⟨(C2_safety_score_amended 40 40 20 { x := 0, y := 0 } [{ x := 0, y := 0 }]).1
      (by decide),
    (C2_safety_score_amended 40 40 20 { x := -20, y := 0 }
      [{ x := -20, y := 0 }, { x := 0, y := 0 }, { x := 20, y := 0 },
        { x := 40, y := 0 }]).2 (by decide) (by decide)⟩

/-- C3 (counterexample): the claim says constructing `HamiltonianPath` with
a non-positive dimension fails with `InvalidGridError`.  No such error
exists anywhere in the repository and `__init__` performs no validation:
with width 0 the construction succeeds and yields an empty cycle. -/
theorem C3_no_invalid_grid_error_counterexample :
    (mkHamiltonianPath 0 480 20).cycle = [] ∧
    (mkHamiltonianPath 0 480 20).path_length = 0 ∧
    (mkHamiltonianPath 0 480 20).grid_width = 0 := by
  refine ⟨by decide, by decide, by decide⟩

/-- C3 (amended): construction never fails — `HamiltonianPath.__init__` has
no validation and no `InvalidGridError` exists in the code; with a
non-positive width or height (and a positive block size) it silently
succeeds and builds an empty cycle. -/
theorem C3_construction_never_fails (w h bs : Int) (hbs : 0 < bs)
    (hwh : w ≤ 0 ∨ h ≤ 0) : (mkHamiltonianPath w h bs).cycle = [] := by
  have key : ∀ a : Int, a ≤ 0 → (a.fdiv bs).toNat = 0 := by
    intro a ha
    rw [Int.toNat_eq_zero, Int.fdiv_eq_ediv _ (le_of_lt hbs)]
    have h2 := Int.ediv_le_ediv hbs ha
    simpa using h2
  have hcyc : (mkHamiltonianPath w h bs).cycle =
      buildHamiltonianCycle ((w.fdiv bs).toNat) ((h.fdiv bs).toNat) bs := rfl
  rw [hcyc]
  rcases hwh with hw | hh
  · rw [key w hw, buildCycle_eq_map]
    simp
  · rw [key h hh, buildCycle_eq_map]
    simp

/-- C3 (witness for the amended theorem). -/
theorem C3_construction_never_fails_witness :
    (0 : Int) < 20 ∧ (mkHamiltonianPath 0 480 20).cycle = [] :=
  ⟨by decide, C3_construction_never_fails 0 480 20 (by decide) (Or.inl (by decide))⟩

/-- C4 (counterexample): the claim says that on a tie between the absolute
coordinate deltas the shortcut planner prefers the horizontal axis.  With
head (0,0) and food (20,20) — a tie, within the 5-cell bound — the code
takes the `else` branch of `abs(dx) > abs(dy)` and moves vertically
(DOWN), returning the turn-right action rather than a horizontal move. -/
theorem C4_axis_tie_counterexample :
    shortcutTargetDir 20 20 = Direction.DOWN ∧
    Direction.DOWN ≠ Direction.RIGHT ∧ Direction.DOWN ≠ Direction.LEFT ∧
    tryShortcutToFood (mkHamiltonianPath 40 40 20) { x := 0, y := 0 }
      Direction.RIGHT { x := 20, y := 20 } [{ x := 0, y := 0 }] =
        some (direction_to_action Direction.RIGHT Direction.DOWN) := by
  refine ⟨by decide, by decide, by decide, by decide⟩

/-- C4 (amended): `_try_shortcut_to_food` picks the horizontal axis exactly
when `abs(dx) > abs(dy)` and otherwise — including ties — the vertical
axis (the direction it converts to an action is `shortcutTargetDir dx dy`,
as visible in the definition of `tryShortcutToFood`). -/
theorem C4_axis_choice (dx dy : Int) :
    (|dx| > |dy| →
      shortcutTargetDir dx dy =
        if dx > 0 then Direction.RIGHT else Direction.LEFT) ∧
    (|dx| ≤ |dy| →
      shortcutTargetDir dx dy =
        if dy > 0 then Direction.DOWN else Direction.UP) ∧
    (|dx| = |dy| →
      shortcutTargetDir dx dy = Direction.DOWN ∨
        shortcutTargetDir dx dy = Direction.UP) := by
  refine ⟨?_, ?_, ?_⟩
  · intro hgt
    unfold shortcutTargetDir
    rw [if_pos hgt]
  · intro hle
    unfold shortcutTargetDir
    rw [if_neg (not_lt.mpr hle)]
  · intro heq
    unfold shortcutTargetDir
    rw [if_neg (by omega)]
    by_cases hdy : dy > 0
    · left
      rw [if_pos hdy]
    · right
      rw [if_neg hdy]

/-- C4 (witness for the amended theorem): at the tie (20, 20) the chosen
direction is vertical. -/
theorem C4_axis_choice_witness :
    shortcutTargetDir 20 20 = Direction.DOWN ∨
      shortcutTargetDir 20 20 = Direction.UP :=
  (C4_axis_choice 20 20).2.2 (by decide)

/-- C9: whenever the game counter is below the warm-up threshold,
`HybridAgent.should_use_hamiltonian` returns false (regardless of the game
state, hence of any danger or safety values computed from it) and
`HybridAgent.get_action` returns the Policy Provider's action verbatim. -/
theorem C9_warmup_policy_unconditional (agent : HybridAgent) (g : GameState)
    (policy_action : List Nat)
    (hwarm : agent.n_games < agent.min_exploration_games) :
    should_use_hamiltonian agent g = false ∧
    get_action agent g policy_action = policy_action := by
  have hs : should_use_hamiltonian agent g = false := by
    unfold should_use_hamiltonian
    by_cases hu : agent.use_hamiltonian <;> simp [hu, hwarm]
  refine ⟨hs, ?_⟩
  unfold get_action
  rw [hs]
  simp

/-- C9 (witness): a fresh agent (0 games played, threshold 50) lets the
policy action through unchanged. -/
theorem C9_warmup_policy_witness :
    should_use_hamiltonian (mkHybridAgent true)
      { w := 640, h := 480, direction := Direction.RIGHT,
        head := { x := 320, y := 240 }, snake := [{ x := 320, y := 240 }],
        food := { x := 100, y := 100 } } = false ∧
    get_action (mkHybridAgent true)
      { w := 640, h := 480, direction := Direction.RIGHT,
        head := { x := 320, y := 240 }, snake := [{ x := 320, y := 240 }],
        food := { x := 100, y := 100 } } [0, 0, 1] = [0, 0, 1] :=
  C9_warmup_policy_unconditional (mkHybridAgent true)
    { w := 640, h := 480, direction := Direction.RIGHT,
      head := { x := 320, y := 240 }, snake := [{ x := 320, y := 240 }],
      food := { x := 100, y := 100 } } [0, 0, 1] (by decide)

/-- C10: `_direction_to_action` is total on all 16 direction pairs and
always returns one of the three one-hot action arrays `[1,0,0]`
(straight), `[0,1,0]` (turn right), `[0,0,1]` (turn left); when the target
is the exact 180-degree reverse of the heading it returns `[0,1,0]`. -/
theorem C10_direction_to_action_total (c t : Direction) :
    (direction_to_action c t = [1, 0, 0] ∨
      direction_to_action c t = [0, 1, 0] ∨
      direction_to_action c t = [0, 0, 1]) ∧
    direction_to_action c (reverseDir c) = [0, 1, 0] := by
  cases c <;> cases t <;> refine ⟨by decide, by decide⟩

/-- C5: for every grid (any cell counts, in particular all valid positive
ones) the cycle built by `_build_hamiltonian_cycle` has exactly
`grid_width * grid_height` elements, they are pairwise distinct, and their
set is exactly the set of all grid cells. -/
theorem C5_cycle_covers_grid (gw gh : Nat) (bs : Int) (hbs : 0 < bs) :
    (buildHamiltonianCycle gw gh bs).length = gw * gh ∧
    (buildHamiltonianCycle gw gh bs).Nodup ∧
    (∀ p : Point, p ∈ buildHamiltonianCycle gw gh bs ↔
      ∃ x y : Nat, x < gw ∧ y < gh ∧
        p = { x := (x : Int) * bs, y := (y : Int) * bs }) :=
  ⟨buildCycle_length gw gh bs, buildCycle_nodup gw gh bs hbs,
    fun p => buildCycle_mem gw gh bs p⟩

/-- C5 (witness): the 2×2 grid with 20-pixel cells. -/
theorem C5_cycle_covers_grid_witness :
    (0 : Int) < 20 ∧ (buildHamiltonianCycle 2 2 20).length = 2 * 2 :=
  ⟨by decide, (C5_cycle_covers_grid 2 2 20 (by decide)).1⟩

/-- C6: any two consecutive cells of the built cycle (the closing
final-to-first wrap edge excluded, since only indices `i` with `i + 1`
still inside the list are quantified) are 4-adjacent: their Manhattan
distance is exactly one block size. -/
theorem C6_consecutive_adjacent (gw gh : Nat) (bs : Int) (hbs : 0 < bs)
    (i : Nat) (h : i + 1 < (buildHamiltonianCycle gw gh bs).length) :
    manhattanDist
      ((buildHamiltonianCycle gw gh bs).get ⟨i, Nat.lt_of_succ_lt h⟩)
      ((buildHamiltonianCycle gw gh bs).get ⟨i + 1, h⟩) = bs := by
  have hlen := buildCycle_length gw gh bs
  have hgw : 0 < gw := by
    rcases Nat.eq_zero_or_pos gw with h0 | h0
    · exfalso
      rw [hlen, h0, Nat.zero_mul] at h
      omega
    · exact h0
  rw [buildCycle_get, buildCycle_get]
  exact cellAt_adjacent gw bs hbs hgw i

/-- C6 (witness): on the 2×2 grid the first two cycle cells are one block
apart. -/
theorem C6_consecutive_adjacent_witness :
    manhattanDist ((buildHamiltonianCycle 2 2 20).get ⟨0, by decide⟩)
      ((buildHamiltonianCycle 2 2 20).get ⟨1, by decide⟩) = 20 :=
  C6_consecutive_adjacent 2 2 20 (by decide) 0 (by decide)

/-- C7: starting from any cell of the built cycle, applying
`get_next_position` exactly `path_length` (= W×H) times returns to the
start, the `path_length` cells visited along the way are pairwise distinct
(no early repeat), and every grid cell is among them. -/
theorem C7_next_visits_all (w h bs : Int) (hbs : 0 < bs) (p : Point)
    (hmem : p ∈ (mkHamiltonianPath w h bs).cycle) :
    let hp := mkHamiltonianPath w h bs
    (get_next_position hp)^[hp.path_length] p = p ∧
    ((List.range hp.path_length).map
      (fun k => (get_next_position hp)^[k] p)).Nodup ∧
    (∀ x y : Nat, x < hp.grid_width → y < hp.grid_height →
      ∃ k, k < hp.path_length ∧
        (get_next_position hp)^[k] p =
          { x := (x : Int) * bs, y := (y : Int) * bs }) := by
  intro hp
  have hcyc : hp.cycle =
      buildHamiltonianCycle ((w.fdiv bs).toNat) ((h.fdiv bs).toNat) bs := rfl
  have hnd : hp.cycle.Nodup := by
    rw [hcyc]
    exact buildCycle_nodup _ _ _ hbs
  have hlen : hp.path_length = hp.cycle.length := rfl
  have hmem' : p ∈ hp.cycle := hmem
  obtain ⟨⟨j, hj⟩, hpj⟩ := List.mem_iff_get.mp hmem'
  subst hpj
  have hLpos : 0 < hp.cycle.length := by omega
  refine ⟨?_, ?_, ?_⟩
  · rw [hlen, iterate_next hp hnd hlen j hj]
    exact get_congr_idx _ _ _ _ _
      (by rw [Nat.add_mod_right, Nat.mod_eq_of_lt hj])
  · rw [hlen]
    refine List.Nodup.map_on ?_ (List.nodup_range _)
    intro k1 hk1 k2 hk2 heq
    rw [iterate_next hp hnd hlen j hj k1, iterate_next hp hnd hlen j hj k2] at heq
    have hfin : (⟨(j + k1) % hp.cycle.length, Nat.mod_lt _ (by omega)⟩ :
        Fin hp.cycle.length) = ⟨(j + k2) % hp.cycle.length, Nat.mod_lt _ (by omega)⟩ :=
      (List.Nodup.get_inj_iff hnd).mp heq
    have hmodeq : (j + k1) % hp.cycle.length = (j + k2) % hp.cycle.length :=
      congrArg Fin.val hfin
    have hk : k1 % hp.cycle.length = k2 % hp.cycle.length :=
      Nat.ModEq.add_left_cancel' j hmodeq
    rw [Nat.mod_eq_of_lt (List.mem_range.mp hk1),
      Nat.mod_eq_of_lt (List.mem_range.mp hk2)] at hk
    exact hk
  · intro x y hx hy
    have hqmem : ({ x := (x : Int) * bs, y := (y : Int) * bs } : Point) ∈ hp.cycle := by
      rw [hcyc]
      exact (buildCycle_mem _ _ _ _).mpr ⟨x, y, hx, hy, rfl⟩
    obtain ⟨⟨i, hi⟩, hqi⟩ := List.mem_iff_get.mp hqmem
    refine ⟨(hp.cycle.length + i - j) % hp.cycle.length, ?_, ?_⟩
    · rw [hlen]
      exact Nat.mod_lt _ hLpos
    · rw [iterate_next hp hnd hlen j hj]
      rw [← hqi]
      refine get_congr_idx _ _ _ _ _ ?_
      have h2 : j + (hp.cycle.length + i - j) = hp.cycle.length + i := by omega
      calc (j + (hp.cycle.length + i - j) % hp.cycle.length) % hp.cycle.length
          = (j + (hp.cycle.length + i - j)) % hp.cycle.length := by
            rw [Nat.add_comm j, Nat.mod_add_mod, Nat.add_comm]
        _ = (hp.cycle.length + i) % hp.cycle.length := by rw [h2]
        _ = i % hp.cycle.length := Nat.add_mod_left _ _
        _ = i := Nat.mod_eq_of_lt hi

/-- C7 (witness): from (0,0) on the 2×2 grid. -/
theorem C7_next_visits_all_witness :
    (0 : Int) < 20 ∧
    ({ x := 0, y := 0 } : Point) ∈ (mkHamiltonianPath 40 40 20).cycle ∧
    ((get_next_position (mkHamiltonianPath 40 40 20))^[(mkHamiltonianPath 40 40 20).path_length]
        { x := 0, y := 0 } = { x := 0, y := 0 } ∧
      ((List.range (mkHamiltonianPath 40 40 20).path_length).map
        (fun k => (get_next_position (mkHamiltonianPath 40 40 20))^[k]
          ({ x := 0, y := 0 } : Point))).Nodup ∧
      (∀ x y : Nat, x < (mkHamiltonianPath 40 40 20).grid_width →
        y < (mkHamiltonianPath 40 40 20).grid_height →
        ∃ k, k < (mkHamiltonianPath 40 40 20).path_length ∧
          (get_next_position (mkHamiltonianPath 40 40 20))^[k]
            ({ x := 0, y := 0 } : Point) =
              { x := (x : Int) * 20, y := (y : Int) * 20 })) :=
  ⟨by decide, by decide,
    C7_next_visits_all 40 40 20 (by decide) { x := 0, y := 0 } (by decide)⟩

/-- C8: on-path distance — `distance(a, a) = 0` for any cell resolving to a
cycle position, and for cells resolving to distinct cycle positions the
two directed distances add up to `path_length = W×H`.  (The function is a
pure function of its arguments, so determinism is inherent.) -/
theorem C8_distance_roundtrip (w h bs : Int) (a b : Point) :
    let hp := mkHamiltonianPath w h bs
    (get_position_index hp a ≠ -1 → get_distance_on_path hp a a = some 0) ∧
    (get_position_index hp a ≠ -1 → get_position_index hp b ≠ -1 →
      get_position_index hp a ≠ get_position_index hp b →
      ∃ d1 d2 : Int, get_distance_on_path hp a b = some d1 ∧
        get_distance_on_path hp b a = some d2 ∧
        d1 + d2 = ((hp.grid_width * hp.grid_height : Nat) : Int)) := by
  intro hp
  have hL : (hp.path_length : Int) = ((hp.grid_width * hp.grid_height : Nat) : Int) := by
    have h1 : hp.path_length = hp.grid_width * hp.grid_height :=
      buildCycle_length _ _ _
    exact congrArg (fun n : Nat => (n : Int)) h1
  constructor
  · intro ha
    rw [get_distance_on_path_def, if_neg (by simp [ha]), if_pos (le_refl _)]
    simp
  · intro ha hb hne
    by_cases hcmp : get_position_index hp b ≥ get_position_index hp a
    · refine ⟨get_position_index hp b - get_position_index hp a,
        (hp.path_length : Int) - get_position_index hp b +
          get_position_index hp a, ?_, ?_, by omega⟩
      · rw [get_distance_on_path_def, if_neg (by simp [ha, hb]), if_pos hcmp]
      · rw [get_distance_on_path_def, if_neg (by simp [ha, hb]),
          if_neg (by omega)]
    · refine ⟨(hp.path_length : Int) - get_position_index hp a +
        get_position_index hp b,
        get_position_index hp a - get_position_index hp b, ?_, ?_, by omega⟩
      · rw [get_distance_on_path_def, if_neg (by simp [ha, hb]), if_neg hcmp]
      · rw [get_distance_on_path_def, if_neg (by simp [ha, hb]),
          if_pos (by omega)]

/-- C8 (witness): on the 2×2 grid, `distance((0,0),(0,0)) = 0` and the two
directed distances between (0,0) and (20,20) add up to 4. -/
theorem C8_distance_roundtrip_witness :
    (get_distance_on_path (mkHamiltonianPath 40 40 20) { x := 0, y := 0 }
      { x := 0, y := 0 } = some 0) ∧
    (∃ d1 d2 : Int,
      get_distance_on_path (mkHamiltonianPath 40 40 20) { x := 0, y := 0 }
        { x := 20, y := 20 } = some d1 ∧
      get_distance_on_path (mkHamiltonianPath 40 40 20) { x := 20, y := 20 }
        { x := 0, y := 0 } = some d2 ∧
      d1 + d2 = (((mkHamiltonianPath 40 40 20).grid_width *
        (mkHamiltonianPath 40 40 20).grid_height : Nat) : Int)) :=
  ⟨(C8_distance_roundtrip 40 40 20 { x := 0, y := 0 } { x := 20, y := 20 }).1
      (by decide),
    (C8_distance_roundtrip 40 40 20 { x := 0, y := 0 } { x := 20, y := 20 }).2
      (by decide) (by decide) (by decide)⟩

end SnakeGame
